import Mathlib

/-!
Shallow embedding of `vectorbt/utils/decorators.py`.

The module provides:
* `custom_property` / `cached_property`: read-only descriptors; the cached
  variant stores the computed value in the instance dictionary under
  `'__cached_' + name` and clears it via `clear_cache`.
* `cached_method`: a decorator that lazily installs an
  `functools.lru_cache`-wrapped closure in the instance dictionary and
  bypasses it when caching is globally off, the member is disabled, or an
  argument is not hashable.
* `traverse_attr_kwargs`: recursive traversal of a class collecting the
  `kwargs` attached to its members, recursing through `child_cls` entries.
* `add_nb_methods`: installs wrappers of numeric functions on an accessor
  class under the function name with `'_1d'` and `'_nb'` removed.

Machine-level Python aspects are embedded as follows: the instance
dictionary slot for a property is an `Option PyVal`; the slot for a method
is an `Option LruEntries` (the `lru_cache` wrapper with its entry list,
most recently used first); exceptions are `Except Err`; the global toggle
`vectorbt.defaults.caching` and the per-member `disabled` flag are `Bool`
parameters.  Each access is given the behaviour (`Except Err PyVal`) that
the underlying user function would produce if it were invoked on that
access, and every operation additionally returns the number of times the
underlying function was actually invoked.
-/

abbrev Err := String

/-- A universe of Python values sufficient for the cache claims: integers,
floats with integral value, strings, and (unhashable) lists of integers. -/
inductive PyVal where
  | int : Int → PyVal
  | float : Int → PyVal
  | str : String → PyVal
  | list : List Int → PyVal
deriving DecidableEq, Repr

/-- Modelled from the spec: `vectorbt.utils.checks.is_hashable` (module not
under `src/`), the HashabilityCheck predicate classifying each argument as
key-able or not.  Container values (lists) are not hashable, scalars and
strings are. -/
def is_hashable : PyVal → Bool
  | PyVal.list _ => false
  | _ => true

/-- Python `==` on the embedded values: numeric values compare across
`int`/`float`, strings and lists compare structurally. -/
def pyEq : PyVal → PyVal → Bool
  | PyVal.int m, PyVal.int n => m == n
  | PyVal.int m, PyVal.float n => m == n
  | PyVal.float m, PyVal.int n => m == n
  | PyVal.float m, PyVal.float n => m == n
  | PyVal.str s, PyVal.str t => s == t
  | PyVal.list xs, PyVal.list ys => xs == ys
  | _, _ => false

/-- The runtime type tag of a value (`type(x)` in Python), used by
`lru_cache(typed=True)` keying. -/
def pyTypeTag : PyVal → Nat
  | PyVal.int _ => 0
  | PyVal.float _ => 1
  | PyVal.str _ => 2
  | PyVal.list _ => 3

/-- Result of a descriptor `__get__`: the descriptor itself (class access),
a value, or a propagated exception. -/
inductive PropResult where
  | descr : PropResult
  | ok : PyVal → PropResult
  | err : Err → PropResult
deriving DecidableEq, Repr

/-- Lift the outcome of invoking the underlying function to a `PropResult`. -/
def exceptToResult : Except Err PyVal → PropResult
  | Except.ok v => PropResult.ok v
  | Except.error e => PropResult.err e

/-- `custom_property.__get__` (decorators.py lines 97-100): accessed through
the class (`instance is None`) it returns the descriptor itself without
invoking the function; accessed through an instance it invokes the
underlying function.  Returns the result and the invocation count. -/
def custom_property_get (fres : Except Err PyVal) (inst : Option Unit) :
    PropResult × Nat :=
  match inst with
  | none => (PropResult.descr, 0)
  | some _ => (exceptToResult fres, 1)

/-- `cached_property.clear_cache` (lines 125-128): delete the slot if the
instance has it, otherwise do nothing. -/
def clear_cache (slot : Option PyVal) : Option PyVal :=
  if slot.isSome then none else slot

/-- `cached_property.__get__` on an instance (lines 136-147): bypass when
the global toggle is off or the member is disabled; otherwise return the
populated slot, or invoke the function once, store the result on success
and leave the slot empty on an exception.  (The double-checked lock
re-reads the same slot, which in this sequential embedding collapses to a
single read.)  Returns result, new slot and invocation count. -/
def cached_property_get (caching disabled : Bool) (fres : Except Err PyVal)
    (slot : Option PyVal) : PropResult × Option PyVal × Nat :=
  if !caching || disabled then (exceptToResult fres, slot, 1)
  else
    match slot with
    | some v => (PropResult.ok v, some v, 0)
    | none =>
      match fres with
      | Except.ok v => (PropResult.ok v, some v, 1)
      | Except.error e => (PropResult.err e, none, 1)

/-- `cached_property.__get__` including the class-access path (lines
133-135): `inst = none` models `instance is None`, `inst = some slot`
models an instance whose cache slot is `slot`. -/
def cached_property_access (caching disabled : Bool) (fres : Except Err PyVal)
    (inst : Option (Option PyVal)) : PropResult × Option (Option PyVal) × Nat :=
  match inst with
  | none => (PropResult.descr, none, 0)
  | some slot =>
    let r := cached_property_get caching disabled fres slot
    (r.1, some r.2.1, r.2.2)

/-- An operation on a cached property of one object: an attribute access
(carrying the behaviour the underlying function would have on that access)
or a `clear_cache` call. -/
inductive PropOp where
  | get : Except Err PyVal → PropOp
  | clear : PropOp

/-- Run a sequence of property operations against one instance, threading
the cache slot; returns the access results, the final slot, and the total
number of underlying-function invocations. -/
def runPropOps (caching disabled : Bool) :
    Option PyVal → List PropOp → List PropResult × Option PyVal × Nat
  | slot, [] => ([], slot, 0)
  | slot, PropOp.clear :: ops => runPropOps caching disabled (clear_cache slot) ops
  | slot, PropOp.get fres :: ops =>
    let s := cached_property_get caching disabled fres slot
    let r := runPropOps caching disabled s.2.1 ops
    (s.1 :: r.1, r.2.1, s.2.2 + r.2.2)

/-- One call to a cached method: positional arguments and keyword
arguments (in declaration order), as passed after `self`. -/
structure Call where
  args : List PyVal
  kwargs : List (String × PyVal)
deriving DecidableEq, Repr

/-- The hashability scan of `cached_method` (lines 224-232): every
positional argument and every keyword-argument value must be hashable. -/
def allHashable (c : Call) : Bool :=
  c.args.all is_hashable && c.kwargs.all (fun p => is_hashable p.2)

/-- Equality of single cache-key components as used by `lru_cache`:
Python `==`, and additionally identical runtime types when `typed` is
set. -/
def argEq (typed : Bool) (a b : PyVal) : Bool :=
  pyEq a b && (!typed || pyTypeTag a == pyTypeTag b)

/-- Componentwise key equality on positional arguments. -/
def argListEq (typed : Bool) : List PyVal → List PyVal → Bool
  | [], [] => true
  | a :: as1, b :: bs1 => argEq typed a b && argListEq typed as1 bs1
  | _, _ => false

/-- Componentwise key equality on keyword arguments (names and values). -/
def kwListEq (typed : Bool) : List (String × PyVal) → List (String × PyVal) → Bool
  | [], [] => true
  | (k1, v1) :: r1, (k2, v2) :: r2 => k1 == k2 && argEq typed v1 v2 && kwListEq typed r1 r2
  | _, _ => false

/-- Equality of whole cache keys built from a call by `lru_cache`'s
`_make_key` (argument tuple plus keyword items, with type tags appended
when `typed` is set). -/
def callEq (typed : Bool) (a b : Call) : Bool :=
  argListEq typed a.args b.args && kwListEq typed a.kwargs b.kwargs

/-- The entry list of one `lru_cache` wrapper, most recently used first. -/
abbrev LruEntries := List (Call × PyVal)

/-- Look up a key in the entry list; on a hit return the stored entry and
the remaining entries (the hit removed, order otherwise kept). -/
def lruExtract (typed : Bool) (c : Call) :
    LruEntries → Option ((Call × PyVal) × LruEntries)
  | [] => none
  | e :: rest =>
    if callEq typed c e.1 then some (e, rest)
    else
      match lruExtract typed c rest with
      | none => none
      | some (hit, rest1) => some (hit, e :: rest1)

/-- One call through a `functools.lru_cache(maxsize, typed)` wrapper
(modelled from its documented behaviour; `functools` is an external
collaborator): a hit moves the entry to the most-recently-used position
and invokes nothing; a miss invokes the function, stores the result on
success evicting least-recently-used entries beyond `maxsize`, and stores
nothing when the function raises. -/
def lruCall (maxsize : Nat) (typed : Bool) (fres : Except Err PyVal)
    (entries : LruEntries) (c : Call) : Except Err PyVal × LruEntries × Nat :=
  match lruExtract typed c entries with
  | some (hit, rest) => (Except.ok hit.2, hit :: rest, 0)
  | none =>
    match fres with
    | Except.ok v => (Except.ok v, ((c, v) :: entries).take maxsize, 1)
    | Except.error e => (Except.error e, entries, 1)

/-- One call to a `cached_method` wrapper (lines 206-236): bypass with a
direct invocation when caching is off or the member disabled (the instance
dictionary untouched); otherwise the `lru_cache` wrapper is first created
and stored in the instance dictionary if absent, and only then are the
arguments checked for hashability — a non-hashable argument invokes the
function directly without storing an entry; hashable arguments go through
the wrapper.  State `none` means the instance has no wrapper yet. -/
def cached_method_call (caching : Bool) (maxsize : Nat) (typed disabled : Bool)
    (fres : Except Err PyVal) (st : Option LruEntries) (c : Call) :
    Except Err PyVal × Option LruEntries × Nat :=
  if !caching || disabled then (fres, st, 1)
  else
    let entries := st.getD []
    if allHashable c then
      let r := lruCall maxsize typed fres entries c
      (r.1, some r.2.1, r.2.2)
    else (fres, some entries, 1)

/-- Run a sequence of method calls against one instance, threading the
wrapper state; each call carries the behaviour the underlying function
would have on that call.  Returns the call results, the final state and
the total number of underlying-function invocations. -/
def runMethodCalls (caching : Bool) (maxsize : Nat) (typed disabled : Bool) :
    Option LruEntries → List (Call × Except Err PyVal) →
      List (Except Err PyVal) × Option LruEntries × Nat
  | st, [] => ([], st, 0)
  | st, (c, fres) :: rest =>
    let s := cached_method_call caching maxsize typed disabled fres st c
    let r := runMethodCalls caching maxsize typed disabled s.2.1 rest
    (s.1 :: r.1, r.2.1, s.2.2 + r.2.2)

mutual

/-- A Python class for `traverse_attr_kwargs`: its members in `dir` order.
A member either has no `kwargs` attribute (`consPlain`, an ordinary
attribute) or is a `custom_property`/`custom_method` descriptor carrying a
`kwargs` dictionary (`consKw`). -/
inductive MemberList where
  | nil : MemberList
  | consPlain : String → MemberList → MemberList
  | consKw : String → PyDict → MemberList → MemberList

/-- A Python dictionary with string keys, in insertion order. -/
inductive PyDict where
  | nil : PyDict
  | cons : String → KwVal → PyDict → PyDict

/-- A value stored in a `kwargs` dictionary: a plain value, a class (the
target of a `child_cls` entry), or a nested dictionary (as stored under
`child_attrs` by the traversal). -/
inductive KwVal where
  | v : PyVal → KwVal
  | cls : MemberList → KwVal
  | dict : PyDict → KwVal

end

/-- Look up a key in a dictionary (first occurrence). -/
def dictGet : PyDict → String → Option KwVal
  | PyDict.nil, _ => none
  | PyDict.cons k v rest, key => if k == key then some v else dictGet rest key

/-- Python `key in dict`. -/
def dictHasKey (d : PyDict) (key : String) : Bool :=
  (dictGet d key).isSome

/-- Python `dict[key] = val`: overwrite the existing entry in place, else
append a new entry at the end. -/
def dictSet : PyDict → String → KwVal → PyDict
  | PyDict.nil, key, val => PyDict.cons key val PyDict.nil
  | PyDict.cons k v rest, key, val =>
    if k == key then PyDict.cons k val rest
    else PyDict.cons k v (dictSet rest key val)

mutual

/-- Python `==` on `kwargs` values (classes compared structurally, an
approximation of identity on the embedded class trees). -/
def kwValEq : KwVal → KwVal → Bool
  | KwVal.v a, KwVal.v b => pyEq a b
  | KwVal.cls a, KwVal.cls b => memberListEq a b
  | KwVal.dict a, KwVal.dict b => dictEq a b
  | _, _ => false

/-- Structural equality of member lists. -/
def memberListEq : MemberList → MemberList → Bool
  | MemberList.nil, MemberList.nil => true
  | MemberList.consPlain a r, MemberList.consPlain b s => a == b && memberListEq r s
  | MemberList.consKw a d r, MemberList.consKw b e s =>
    a == b && dictEq d e && memberListEq r s
  | _, _ => false

/-- Structural equality of dictionaries. -/
def dictEq : PyDict → PyDict → Bool
  | PyDict.nil, PyDict.nil => true
  | PyDict.cons k v r, PyDict.cons l w s => k == l && kwValEq v w && dictEq r s
  | _, _ => false

end

/-- The filter of `traverse_attr_kwargs` (lines 279-288): with no `key`
every member with `kwargs` passes; with a `key` the dictionary must
contain it, and with filter values the stored value must moreover be `==`
to one of them (`_value in value`). -/
def passesFilter (kw : PyDict) (key : Option String) (vals : Option (List KwVal)) : Bool :=
  match key with
  | none => true
  | some k =>
    match dictGet kw k with
    | none => false
    | some v0 =>
      match vals with
      | none => true
      | some vs => vs.any (fun w => kwValEq v0 w)

mutual

/-- The `child_cls` handling of one member's `kwargs` (lines 289-293 up to
the recursive call): scan the dictionary for the first `child_cls` entry.
If its value is a class, traverse that class recursively and return the
resulting subtree together with the dictionary in which the child class
has been replaced by its traversed (possibly mutated) version; if it is
not a class, fail with the type-mismatch error raised by
`checks.assert_type` (modelled from the spec, `checks` is not under
`src/`); if there is no such entry, return `none`.  The `fuel` argument
embeds Python's recursion limit: the source performs no cycle detection
and an exhausted limit surfaces as a `RecursionError`, here the
`recursion-limit` error; every terminating Python run corresponds to a
sufficiently large fuel. -/
def processChild : Nat → PyDict → Option String → Option (List KwVal) →
    Except Err (Option (PyDict × PyDict))
  | 0, _, _, _ => Except.error "recursion-limit"
  | Nat.succ _, PyDict.nil, _, _ => Except.ok none
  | Nat.succ fuel, PyDict.cons k val rest, key, vals =>
    if k == "child_cls" then
      match val with
      | KwVal.cls child =>
        match traverseMembers fuel child key vals with
        | Except.error e => Except.error e
        | Except.ok (sub, child2) =>
          Except.ok (some (sub, PyDict.cons k (KwVal.cls child2) rest))
      | _ => Except.error "type-mismatch"
    else
      match processChild fuel rest key vals with
      | Except.error e => Except.error e
      | Except.ok none => Except.ok none
      | Except.ok (some (sub, rest2)) =>
        Except.ok (some (sub, PyDict.cons k val rest2))

/-- The member loop of `traverse_attr_kwargs` (lines 274-294): members
without a `kwargs` attribute are skipped; a member with `kwargs` is
entered into the result when it passes the filter, and is always entered
when its `kwargs` contains `child_cls` — in that case the traversal of the
child class is stored into the member's own `kwargs` dictionary under
`child_attrs` (the Python code mutates the shared `kwargs` dict in place;
here the mutated class is returned alongside the result).  `fuel` as in
`processChild`. -/
def traverseMembers : Nat → MemberList → Option String → Option (List KwVal) →
    Except Err (PyDict × MemberList)
  | 0, _, _, _ => Except.error "recursion-limit"
  | Nat.succ _, MemberList.nil, _, _ => Except.ok (PyDict.nil, MemberList.nil)
  | Nat.succ fuel, MemberList.consPlain a rest, key, vals =>
    match traverseMembers fuel rest key vals with
    | Except.error e => Except.error e
    | Except.ok (attrs, rest2) => Except.ok (attrs, MemberList.consPlain a rest2)
  | Nat.succ fuel, MemberList.consKw a kw rest, key, vals =>
    match processChild fuel kw key vals with
    | Except.error e => Except.error e
    | Except.ok childRes =>
      match traverseMembers fuel rest key vals with
      | Except.error e => Except.error e
      | Except.ok (attrs, rest2) =>
        match childRes with
        | none =>
          if passesFilter kw key vals then
            Except.ok (PyDict.cons a (KwVal.dict kw) attrs, MemberList.consKw a kw rest2)
          else
            Except.ok (attrs, MemberList.consKw a kw rest2)
        | some (sub, kw1) =>
          let kw2 := dictSet kw1 "child_attrs" (KwVal.dict sub)
          Except.ok (PyDict.cons a (KwVal.dict kw2) attrs, MemberList.consKw a kw2 rest2)

end

/-- The `value` argument of `traverse_attr_kwargs` as passed by a caller:
either a single value or a tuple of values. -/
inductive TraverseValueArg where
  | single : KwVal → TraverseValueArg
  | tup : List KwVal → TraverseValueArg

/-- Line 272-273: a non-`None` value that is not a tuple is wrapped into a
one-element tuple. -/
def normalizeValue : Option TraverseValueArg → Option (List KwVal)
  | none => none
  | some (TraverseValueArg.single v) => some [v]
  | some (TraverseValueArg.tup vs) => some vs

/-- `traverse_attr_kwargs(cls, key, value)` (lines 263-294).  The
`checks.assert_type(cls, type)` precondition is enforced by typing (the
argument is a class); the result is the collected attribute dictionary
together with the post-call state of the class (whose member `kwargs`
dictionaries the Python code mutates in place).  `fuel` is the Python
recursion limit, see `processChild`. -/
def traverse_attr_kwargs (fuel : Nat) (cls : MemberList) (key : Option String)
    (value : Option TraverseValueArg) : Except Err (PyDict × MemberList) :=
  traverseMembers fuel cls key (normalizeValue value)

/-- The attribute dictionary of a successful traversal. -/
def traverseAttrs (r : Except Err (PyDict × MemberList)) : PyDict :=
  match r with
  | Except.ok p => p.1
  | Except.error _ => PyDict.nil

/-- The post-call class of a successful traversal. -/
def traverseCls (r : Except Err (PyDict × MemberList)) : MemberList :=
  match r with
  | Except.ok p => p.2
  | Except.error _ => MemberList.nil

/-- Whether a traversal succeeded. -/
def traverseOk (r : Except Err (PyDict × MemberList)) : Bool :=
  match r with
  | Except.ok _ => true
  | Except.error _ => false

/-- The `kwargs` dictionary of the first member with the given name,
if that member carries one. -/
def memberKwargs : MemberList → String → Option PyDict
  | MemberList.nil, _ => none
  | MemberList.consPlain a rest, n =>
    if a == n then none else memberKwargs rest n
  | MemberList.consKw a kw rest, n =>
    if a == n then some kw else memberKwargs rest n

/-- Whether an optional `kwargs` dictionary contains `child_attrs`. -/
def kwHasChildAttrs : Option PyDict → Bool
  | none => false
  | some d => dictHasKey d "child_attrs"

/-- Specification predicate for the amended C4: the class has a member of
the given name carrying `kwargs` that either passes the filter or
contains a `child_cls` entry. -/
def memberIncluded (ms : MemberList) (a : String) (key : Option String)
    (vals : Option (List KwVal)) : Bool :=
  match ms with
  | MemberList.nil => false
  | MemberList.consPlain _ rest => memberIncluded rest a key vals
  | MemberList.consKw n kw rest =>
    (n == a && (passesFilter kw key vals || dictHasKey kw "child_cls")) ||
      memberIncluded rest a key vals

/-- Specification predicate for the amended C5, relating a class to its
post-traversal state: member names and order are preserved; a member whose
`kwargs` lacks `child_cls` keeps its `kwargs` unchanged, while a member
with `child_cls` ends up with a `child_attrs` entry stored into its
`kwargs`. -/
def configsPreserved : MemberList → MemberList → Prop
  | MemberList.nil, MemberList.nil => True
  | MemberList.consPlain a r, MemberList.consPlain b s =>
    b = a ∧ configsPreserved r s
  | MemberList.consKw a kw r, MemberList.consKw b kw2 s =>
    b = a ∧
      (if dictHasKey kw "child_cls" then dictHasKey kw2 "child_attrs" = true
       else kw2 = kw) ∧
      configsPreserved r s
  | _, _ => False

/-- Character-list test that `pat` is an initial segment of `s`. -/
def startsWithPat : List Char → List Char → Bool
  | [], _ => true
  | _ :: _, [] => false
  | p :: ps, c :: cs => p == c && startsWithPat ps cs

/-- Fuel-driven Python `str.replace`: scan left to right, replace each
non-overlapping occurrence of `pat` (the replacement is not rescanned).
The fuel bounds the number of scan steps; `s.length` steps suffice for a
non-empty pattern. -/
def replaceSub : Nat → List Char → List Char → List Char → List Char
  | 0, s, _, _ => s
  | Nat.succ fuel, s, pat, rep =>
    match s with
    | [] => []
    | c :: rest =>
      if startsWithPat pat s then rep ++ replaceSub fuel (s.drop pat.length) pat rep
      else c :: replaceSub fuel rest pat rep

/-- Python `s.replace(pat, rep)` for non-empty `pat`. -/
def pyReplace (s pat rep : String) : String :=
  String.mk (replaceSub s.data.length s.data pat.data rep.data)

/-- Whether `pat` occurs as a substring. -/
def occursPat : List Char → List Char → Bool
  | s, pat =>
    if startsWithPat pat s then true
    else
      match s with
      | [] => false
      | _ :: rest => occursPat rest pat

/-- The attribute name under which `add_nb_methods` installs the wrapper
of a function (line 59): the function's name with every occurrence of
`'_1d'` and then `'_nb'` removed. -/
def nbMethodName (name : String) : String :=
  pyReplace (pyReplace name "_1d" "") "_nb" ""

/-- `add_nb_methods(*nb_funcs)` as it acts on the attribute table of the
accessor class (lines 29-62): for each function a wrapper method is
installed via `setattr` under `nbMethodName` of the function's name. -/
def add_nb_methods (funcNames : List String) (clsAttrs : List String) : List String :=
  clsAttrs ++ funcNames.map nbMethodName

/-- A concrete call with a non-hashable positional argument. -/
def unhashCall : Call := ⟨[PyVal.list [1]], []⟩

/-- A concrete class with three annotated members: `m1` passes the filter
`K ∈ {v1, v2}`, `m2` has `K` with a value outside the filter, and `m3` has
no `K` at all but declares a `child_cls`. -/
def clsC4 : MemberList :=
  MemberList.consKw "m1" (PyDict.cons "K" (KwVal.v (PyVal.str "v1")) PyDict.nil)
    (MemberList.consKw "m2" (PyDict.cons "K" (KwVal.v (PyVal.str "zzz")) PyDict.nil)
      (MemberList.consKw "m3" (PyDict.cons "child_cls" (KwVal.cls MemberList.nil) PyDict.nil)
        MemberList.nil))

/-- A concrete class with one member whose `kwargs` declares a
`child_cls` (and nothing else). -/
def clsC5 : MemberList :=
  MemberList.consKw "m" (PyDict.cons "child_cls" (KwVal.cls MemberList.nil) PyDict.nil)
    MemberList.nil

/-- The `kwargs` dictionary of `clsC5`'s member after one traversal: the
traversal has stored a `child_attrs` entry into it. -/
def kw2C5 : PyDict :=
  PyDict.cons "child_cls" (KwVal.cls MemberList.nil)
    (PyDict.cons "child_attrs" (KwVal.dict PyDict.nil) PyDict.nil)

/-- The post-traversal state of `clsC5`. -/
def ms2C5 : MemberList := MemberList.consKw "m" kw2C5 MemberList.nil

/-- The attribute dictionary returned by traversing `clsC5`. -/
def attrsC5 : PyDict := PyDict.cons "m" (KwVal.dict kw2C5) PyDict.nil

/-! ## Helper lemmas -/

theorem runPropOps_warm (fres : Except Err PyVal) (v : PyVal) (n : Nat) :
    runPropOps true false (some v) (List.replicate n (PropOp.get fres)) =
      (List.replicate n (PropResult.ok v), some v, 0) := by
  induction n with
  | zero => rfl
  | succ m ih => simp [List.replicate, runPropOps, cached_property_get, ih]

theorem pyEq_symm (a b : PyVal) : pyEq a b = pyEq b a := by
  cases a <;> cases b <;> simp [pyEq, eq_comm]

theorem beqComm {α : Type _} [BEq α] [LawfulBEq α] (a b : α) : (a == b) = (b == a) := by
  by_cases h : a = b
  · subst h; rfl
  · rw [beq_eq_false_iff_ne.mpr h, beq_eq_false_iff_ne.mpr (Ne.symm h)]

theorem argEq_symm (typed : Bool) (a b : PyVal) : argEq typed a b = argEq typed b a := by
  cases typed <;> simp [argEq, pyEq_symm a b, beqComm (pyTypeTag a) (pyTypeTag b)]

theorem argListEq_symm (typed : Bool) :
    ∀ (xs ys : List PyVal), argListEq typed xs ys = argListEq typed ys xs
  | [], [] => rfl
  | [], _ :: _ => rfl
  | _ :: _, [] => rfl
  | x :: xs, y :: ys => by
    simp [argListEq, argEq_symm typed x y, argListEq_symm typed xs ys]

theorem kwListEq_symm (typed : Bool) :
    ∀ (xs ys : List (String × PyVal)), kwListEq typed xs ys = kwListEq typed ys xs
  | [], [] => rfl
  | [], _ :: _ => rfl
  | _ :: _, [] => rfl
  | (k1, v1) :: r1, (k2, v2) :: r2 => by
    simp [kwListEq, argEq_symm typed v1 v2, kwListEq_symm typed r1 r2, beqComm k1 k2,
      Bool.and_comm, Bool.and_left_comm]

theorem callEq_symm (typed : Bool) (a b : Call) : callEq typed a b = callEq typed b a := by
  simp [callEq, argListEq_symm, kwListEq_symm]

theorem lruExtract_length (typed : Bool) (c : Call) (es : LruEntries) :
    ∀ (hit : Call × PyVal) (rest : LruEntries),
      lruExtract typed c es = some (hit, rest) → rest.length + 1 = es.length := by
  induction es with
  | nil => intro hit rest h; simp [lruExtract] at h
  | cons e es ih =>
    intro hit rest h
    simp only [lruExtract] at h
    split at h
    · cases h
      simp
    · cases heq : lruExtract typed c es with
      | none => rw [heq] at h; cases h
      | some pr =>
        obtain ⟨hit1, rest1⟩ := pr
        rw [heq] at h
        cases h
        have := ih _ _ heq
        simp only [List.length_cons]
        omega

theorem dictHasKey_cons (k : String) (v : KwVal) (d : PyDict) (a : String) :
    dictHasKey (PyDict.cons k v d) a = ((k == a) || dictHasKey d a) := by
  cases h : (k == a) <;> simp [dictHasKey, dictGet, h]

theorem dictHasKey_dictSet_self : ∀ (d : PyDict) (k : String) (v : KwVal),
    dictHasKey (dictSet d k v) k = true
  | PyDict.nil, k, v => by simp [dictSet, dictHasKey, dictGet]
  | PyDict.cons k1 v1 rest, k, v => by
    cases h : (k1 == k) with
    | false =>
      have ih := dictHasKey_dictSet_self rest k v
      simpa [dictSet, h, dictHasKey, dictGet] using ih
    | true => simp [dictSet, h, dictHasKey, dictGet]

theorem processChild_hasKey (fuel : Nat) :
    ∀ (key : Option String) (vals : Option (List KwVal)) (d : PyDict)
      (res : Option (PyDict × PyDict)),
      processChild fuel d key vals = Except.ok res → res.isSome = dictHasKey d "child_cls" := by
  induction fuel with
  | zero =>
    intro key vals d res h
    cases h
  | succ m ih =>
    intro key vals d res h
    cases d with
    | nil =>
      cases h
      rfl
    | cons k val rest =>
      simp only [processChild] at h
      split at h
      · rename_i hk
        split at h
        · split at h
          · cases h
          · cases h
            simp [dictHasKey_cons, hk]
        · cases h
      · rename_i hk
        split at h
        · cases h
        · rename_i heq
          cases h
          have h2 := ih key vals rest none heq
          rw [dictHasKey_cons]
          simpa [hk] using h2
        · rename_i sub rest2 heq
          cases h
          have h2 := ih key vals rest (some (sub, rest2)) heq
          rw [dictHasKey_cons]
          simpa [hk] using h2

theorem traverseMembers_hasKey (fuel : Nat) :
    ∀ (ms : MemberList) (key : Option String) (vals : Option (List KwVal))
      (attrs : PyDict) (ms2 : MemberList) (a : String),
      traverseMembers fuel ms key vals = Except.ok (attrs, ms2) →
      dictHasKey attrs a = memberIncluded ms a key vals := by
  induction fuel with
  | zero =>
    intro ms key vals attrs ms2 a h
    cases h
  | succ m ih =>
    intro ms key vals attrs ms2 a h
    cases ms with
    | nil =>
      cases h
      rfl
    | consPlain n rest =>
      simp only [traverseMembers] at h
      split at h
      · cases h
      · rename_i attrs1 rest2 heq
        cases h
        simpa [memberIncluded] using ih rest key vals _ _ a heq
    | consKw n kw rest =>
      simp only [traverseMembers] at h
      split at h
      · cases h
      · rename_i childRes hc
        split at h
        · cases h
        · rename_i attrs1 rest2 heq
          have ihrest := ih rest key vals _ _ a heq
          split at h
          · -- no child_cls entry found
            have hnochild : dictHasKey kw "child_cls" = false := by
              simpa using (processChild_hasKey m key vals kw none hc).symm
            split at h
            · rename_i hp
              cases h
              simp [dictHasKey_cons, memberIncluded, hp, hnochild, ihrest]
            · rename_i hp
              cases h
              simp [memberIncluded, hp, hnochild, ihrest]
          · -- a child_cls entry was traversed
            rename_i sub kw1
            have hchild : dictHasKey kw "child_cls" = true := by
              simpa using (processChild_hasKey m key vals kw (some (sub, kw1)) hc).symm
            cases h
            simp [dictHasKey_cons, memberIncluded, hchild, ihrest]

theorem traverseMembers_preserves (fuel : Nat) :
    ∀ (ms : MemberList) (key : Option String) (vals : Option (List KwVal))
      (attrs : PyDict) (ms2 : MemberList),
      traverseMembers fuel ms key vals = Except.ok (attrs, ms2) →
      configsPreserved ms ms2 := by
  induction fuel with
  | zero =>
    intro ms key vals attrs ms2 h
    cases h
  | succ m ih =>
    intro ms key vals attrs ms2 h
    cases ms with
    | nil =>
      cases h
      simp [configsPreserved]
    | consPlain n rest =>
      simp only [traverseMembers] at h
      split at h
      · cases h
      · rename_i attrs1 rest2 heq
        cases h
        simpa [configsPreserved] using ih rest key vals _ _ heq
    | consKw n kw rest =>
      simp only [traverseMembers] at h
      split at h
      · cases h
      · rename_i childRes hc
        split at h
        · cases h
        · rename_i attrs1 rest2 heq
          have ihrest := ih rest key vals _ _ heq
          split at h
          · have hnochild : dictHasKey kw "child_cls" = false := by
              simpa using (processChild_hasKey m key vals kw none hc).symm
            split at h
            · cases h
              simpa [configsPreserved, hnochild] using ihrest
            · cases h
              simpa [configsPreserved, hnochild] using ihrest
          · rename_i sub kw1
            have hchild : dictHasKey kw "child_cls" = true := by
              simpa using (processChild_hasKey m key vals kw (some (sub, kw1)) hc).symm
            cases h
            simpa [configsPreserved, hchild, dictHasKey_dictSet_self] using ihrest

theorem replaceSub_no_occurrence :
    ∀ (fuel : Nat) (s pat rep : List Char),
      occursPat s pat = false → replaceSub fuel s pat rep = s
  | 0, s, _, _, _ => rfl
  | Nat.succ fuel, [], pat, rep, _ => rfl
  | Nat.succ fuel, c :: rest, pat, rep, h => by
    simp only [occursPat] at h
    by_cases hs : startsWithPat pat (c :: rest) = true
    · rw [if_pos hs] at h
      cases h
    · rw [if_neg hs] at h
      simp only [replaceSub]
      rw [if_neg hs]
      rw [replaceSub_no_occurrence fuel rest pat rep h]

theorem pyReplace_no_occurrence (s pat rep : String)
    (h : occursPat s.data pat.data = false) : pyReplace s pat rep = s := by
  simp only [pyReplace]
  rw [replaceSub_no_occurrence _ _ _ _ h]

/-! ## Claim theorems -/

/-- C1: with the global caching toggle on and the property declared with
`disabled = false`, any number of `get` accesses to a cached property of
one object all return the computed value, and the underlying function is
invoked at most once across the whole sequence (the first access computes
and stores the value, every later access returns the stored value). -/
theorem cached_property_invokes_at_most_once (fv : PyVal) (n : Nat) :
    (runPropOps true false none (List.replicate n (PropOp.get (Except.ok fv)))).1 =
        List.replicate n (PropResult.ok fv) ∧
      (runPropOps true false none (List.replicate n (PropOp.get (Except.ok fv)))).2.2 ≤ 1 := by
  cases n with
  | zero => exact ⟨rfl, Nat.zero_le 1⟩
  | succ m =>
    have hwarm := runPropOps_warm (Except.ok fv) fv m
    constructor
    · simp [List.replicate, runPropOps, cached_property_get, hwarm]
    · simp [List.replicate, runPropOps, cached_property_get, hwarm]

/-- C6: `clear_cache` removes the cached slot when present and is an
idempotent no-op when absent; consequently the sequence get, clear, get
on a fresh object invokes the underlying function exactly twice. -/
theorem clear_cache_removes_and_recompute (v fv fv2 : PyVal) :
    clear_cache (some v) = none ∧ clear_cache none = none ∧
      runPropOps true false none
          [PropOp.get (Except.ok fv), PropOp.clear, PropOp.get (Except.ok fv2)] =
        ([PropResult.ok fv, PropResult.ok fv2], some fv2, 2) :=
  ⟨rfl, rfl, rfl⟩

/-- C10: accessed through the class itself rather than through an
instance, both `custom_property` and `cached_property` return the
descriptor object itself — the underlying function is not invoked and no
cache storage is read or written. -/
theorem class_access_returns_descriptor (fres : Except Err PyVal) (caching disabled : Bool) :
    custom_property_get fres none = (PropResult.descr, 0) ∧
      cached_property_access caching disabled fres none = (PropResult.descr, none, 0) :=
  ⟨rfl, rfl⟩

/-- C3: an exception raised by the underlying function during a
cache-miss computation propagates unchanged and leaves the property slot
(respectively the keyed-cache entry) empty, so the next access for the
same object and the same key invokes the underlying function again — both
for `cached_property` and for `cached_method`. -/
theorem failing_computation_not_cached (e : Err) (fv : PyVal) (c : Call) (N : Nat)
    (typed : Bool) (hh : allHashable c = true) (hN : 1 ≤ N) :
    runPropOps true false none [PropOp.get (Except.error e), PropOp.get (Except.ok fv)] =
        ([PropResult.err e, PropResult.ok fv], some fv, 2) ∧
      runMethodCalls true N typed false none [(c, Except.error e), (c, Except.ok fv)] =
        ([Except.error e, Except.ok fv], some [(c, fv)], 2) := by
  constructor
  · rfl
  · have htake : ([(c, fv)] : LruEntries).take N = [(c, fv)] :=
      List.take_of_length_le (by simpa using hN)
    simp [runMethodCalls, cached_method_call, hh, lruCall, lruExtract, htake]

/-- Witness for C3 at concrete inputs. -/
theorem failing_computation_not_cached_witness :
    allHashable ⟨[PyVal.int 1], []⟩ = true ∧ (1 ≤ 128) ∧
      runMethodCalls true 128 false false none
          [(⟨[PyVal.int 1], []⟩, Except.error "boom"),
            (⟨[PyVal.int 1], []⟩, Except.ok (PyVal.int 7))] =
        ([Except.error "boom", Except.ok (PyVal.int 7)],
          some [(⟨[PyVal.int 1], []⟩, PyVal.int 7)], 2) ∧
      runPropOps true false none
          [PropOp.get (Except.error "boom"), PropOp.get (Except.ok (PyVal.int 7))] =
        ([PropResult.err "boom", PropResult.ok (PyVal.int 7)], some (PyVal.int 7), 2) :=
  ⟨rfl, by norm_num,
    (failing_computation_not_cached "boom" (PyVal.int 7) ⟨[PyVal.int 1], []⟩ 128 false rfl
      (by norm_num)).2,
    (failing_computation_not_cached "boom" (PyVal.int 7) ⟨[PyVal.int 1], []⟩ 128 false rfl
      (by norm_num)).1⟩

/-- C2 counterexample: a call to a cached method whose positional argument
is not hashable does touch storage on the object when the LRU wrapper is
absent — the wrapper is created and stored in the instance dictionary
before the hashability check runs. -/
theorem bypassed_call_creates_cache_structure :
    allHashable unhashCall = false ∧
      (cached_method_call true 128 false false (Except.ok (PyVal.int 7)) none unhashCall).2.1
        = some [] :=
  ⟨rfl, rfl⟩

/-- C2 (amended): a call to a cached method in which some positional or
keyword argument is not hashable invokes the underlying function directly
and returns its result, silently (not an error), with no entry stored in
the keyed cache (the entry list is unchanged) — but the empty LRU wrapper
is first created and stored on the object when absent. -/
theorem unhashable_bypass_direct_no_entry (maxsize : Nat) (typed : Bool)
    (fres : Except Err PyVal) (st : Option LruEntries) (c : Call)
    (h : allHashable c = false) :
    cached_method_call true maxsize typed false fres st c = (fres, some (st.getD []), 1) := by
  simp [cached_method_call, h]

/-- Witness for the amended C2 at concrete inputs: an unhashable keyword
argument, with a previously populated cache left unchanged. -/
theorem unhashable_bypass_direct_no_entry_witness :
    allHashable ⟨[], [("x", PyVal.list [1, 2])]⟩ = false ∧
      cached_method_call true 128 false false (Except.ok (PyVal.int 5))
          (some [(⟨[PyVal.int 1], []⟩, PyVal.int 9)]) ⟨[], [("x", PyVal.list [1, 2])]⟩ =
        (Except.ok (PyVal.int 5), some [(⟨[PyVal.int 1], []⟩, PyVal.int 9)], 1) :=
  ⟨rfl, unhashable_bypass_direct_no_entry 128 false (Except.ok (PyVal.int 5))
    (some [(⟨[PyVal.int 1], []⟩, PyVal.int 9)]) ⟨[], [("x", PyVal.list [1, 2])]⟩ rfl⟩

/-- C7: for two calls whose single arguments are `==`-equal but of
different runtime type (such as `1` and `1.0`), a cached method with
`type_sensitive = true` keys and caches them separately — the underlying
function is invoked once for each and two entries are stored — while with
`type_sensitive = false` the two calls share one cache entry and the
underlying function is invoked only once. -/
theorem type_sensitive_keying (v w fv1 fv2 : PyVal)
    (hvw : pyEq v w = true) (hty : pyTypeTag v ≠ pyTypeTag w)
    (hv : is_hashable v = true) (hw : is_hashable w = true) :
    runMethodCalls true 128 true false none
        [(⟨[v], []⟩, Except.ok fv1), (⟨[w], []⟩, Except.ok fv2)] =
      ([Except.ok fv1, Except.ok fv2],
        some [(⟨[w], []⟩, fv2), (⟨[v], []⟩, fv1)], 2) ∧
    runMethodCalls true 128 false false none
        [(⟨[v], []⟩, Except.ok fv1), (⟨[w], []⟩, Except.ok fv2)] =
      ([Except.ok fv1, Except.ok fv1], some [(⟨[v], []⟩, fv1)], 1) := by
  have hwv : pyEq w v = true := by rw [pyEq_symm]; exact hvw
  have htyb : (pyTypeTag w == pyTypeTag v) = false := beq_eq_false_iff_ne.mpr (Ne.symm hty)
  have ht1 : ∀ (x : Call × PyVal), ([x] : LruEntries).take 128 = [x] := fun _ => rfl
  have ht2 : ∀ (x y : Call × PyVal), ([x, y] : LruEntries).take 128 = [x, y] :=
    fun _ _ => rfl
  constructor
  · simp [runMethodCalls, cached_method_call, allHashable, hv, hw, lruCall, lruExtract,
      callEq, argListEq, kwListEq, argEq, hwv, htyb, ht1, ht2]
  · simp [runMethodCalls, cached_method_call, allHashable, hv, hw, lruCall, lruExtract,
      callEq, argListEq, kwListEq, argEq, hwv, ht1, ht2]

/-- Witness for C7 at concrete inputs: integer 1 and float 1.0. -/
theorem type_sensitive_keying_witness :
    pyEq (PyVal.int 1) (PyVal.float 1) = true ∧
      runMethodCalls true 128 true false none
          [(⟨[PyVal.int 1], []⟩, Except.ok (PyVal.int 10)),
            (⟨[PyVal.float 1], []⟩, Except.ok (PyVal.int 20))] =
        ([Except.ok (PyVal.int 10), Except.ok (PyVal.int 20)],
          some [(⟨[PyVal.float 1], []⟩, PyVal.int 20), (⟨[PyVal.int 1], []⟩, PyVal.int 10)],
          2) ∧
      runMethodCalls true 128 false false none
          [(⟨[PyVal.int 1], []⟩, Except.ok (PyVal.int 10)),
            (⟨[PyVal.float 1], []⟩, Except.ok (PyVal.int 20))] =
        ([Except.ok (PyVal.int 10), Except.ok (PyVal.int 10)],
          some [(⟨[PyVal.int 1], []⟩, PyVal.int 10)], 1) :=
  ⟨rfl,
    (type_sensitive_keying (PyVal.int 1) (PyVal.float 1) (PyVal.int 10) (PyVal.int 20)
      rfl (by decide) rfl rfl).1,
    (type_sensitive_keying (PyVal.int 1) (PyVal.float 1) (PyVal.int 10) (PyVal.int 20)
      rfl (by decide) rfl rfl).2⟩

/-- C8: the per-object keyed cache of a method declared with
`max_entries = N` never grows beyond `N` entries, and with
`max_entries = 2` three calls with pairwise distinct keys A, B, C leave
exactly the two most recent keys stored — A's entry is the one evicted,
per least-recently-used order. -/
theorem lru_bound_and_eviction :
    (∀ (caching : Bool) (N : Nat) (typed disabled : Bool) (fres : Except Err PyVal)
        (st : Option LruEntries) (c : Call),
        ((st.getD []).length ≤ N) →
        (((cached_method_call caching N typed disabled fres st c).2.1).getD []).length ≤ N) ∧
      (∀ (a b c : Call) (va vb vc : PyVal),
        allHashable a = true → allHashable b = true → allHashable c = true →
        callEq false a b = false → callEq false a c = false → callEq false b c = false →
        runMethodCalls true 2 false false none
            [(a, Except.ok va), (b, Except.ok vb), (c, Except.ok vc)] =
          ([Except.ok va, Except.ok vb, Except.ok vc], some [(c, vc), (b, vb)], 3)) := by
  constructor
  · intro caching N typed disabled fres st c hlen
    by_cases hby : (!caching || disabled) = true
    · simp only [cached_method_call, if_pos hby]
      exact hlen
    · simp only [cached_method_call, if_neg hby]
      by_cases hh : allHashable c = true
      · simp only [if_pos hh, lruCall]
        cases hext : lruExtract typed c (st.getD []) with
        | none =>
          simp only [hext]
          cases fres with
          | ok v =>
            exact List.length_take_le N ((c, v) :: st.getD [])
          | error e =>
            exact hlen
        | some pr =>
          obtain ⟨hit, rest⟩ := pr
          simp only [hext]
          have hlen2 := lruExtract_length typed c (st.getD []) hit rest hext
          simp only [Option.getD, List.length_cons]
          omega
      · simp only [if_neg hh]
        simpa using hlen
  · intro a b c va vb vc ha hb hc hab hac hbc
    have hba : callEq false b a = false := by rw [callEq_symm]; exact hab
    have hca : callEq false c a = false := by rw [callEq_symm]; exact hac
    have hcb : callEq false c b = false := by rw [callEq_symm]; exact hbc
    have ht1 : ∀ (x : Call × PyVal), ([x] : LruEntries).take 2 = [x] := fun _ => rfl
    have ht2 : ∀ (x y : Call × PyVal), ([x, y] : LruEntries).take 2 = [x, y] :=
      fun _ _ => rfl
    have ht3 : ∀ (x y z : Call × PyVal), ([x, y, z] : LruEntries).take 2 = [x, y] :=
      fun _ _ _ => rfl
    simp [runMethodCalls, cached_method_call, ha, hb, hc, lruCall, lruExtract,
      hba, hca, hcb, ht1, ht2, ht3]

/-- Witness for C8 at concrete inputs. -/
theorem lru_bound_and_eviction_witness :
    (((cached_method_call true 2 false false (Except.ok (PyVal.int 9))
          (some [(⟨[PyVal.int 1], []⟩, PyVal.int 4), (⟨[PyVal.int 2], []⟩, PyVal.int 5)])
          ⟨[PyVal.int 3], []⟩).2.1).getD []).length ≤ 2 ∧
      runMethodCalls true 2 false false none
          [(⟨[PyVal.int 1], []⟩, Except.ok (PyVal.int 11)),
            (⟨[PyVal.int 2], []⟩, Except.ok (PyVal.int 12)),
            (⟨[PyVal.int 3], []⟩, Except.ok (PyVal.int 13))] =
        ([Except.ok (PyVal.int 11), Except.ok (PyVal.int 12), Except.ok (PyVal.int 13)],
          some [(⟨[PyVal.int 3], []⟩, PyVal.int 13), (⟨[PyVal.int 2], []⟩, PyVal.int 12)],
          3) :=
  ⟨lru_bound_and_eviction.1 true 2 false false (Except.ok (PyVal.int 9))
      (some [(⟨[PyVal.int 1], []⟩, PyVal.int 4), (⟨[PyVal.int 2], []⟩, PyVal.int 5)])
      ⟨[PyVal.int 3], []⟩ (by decide),
    lru_bound_and_eviction.2 ⟨[PyVal.int 1], []⟩ ⟨[PyVal.int 2], []⟩ ⟨[PyVal.int 3], []⟩
      (PyVal.int 11) (PyVal.int 12) (PyVal.int 13) rfl rfl rfl rfl rfl rfl⟩

/-- C4 (amended): for a traversal with a filter key and filter values, the
returned mapping contains exactly those members whose attached `kwargs`
either contain the key with a value among the given values, or contain a
`child_cls` entry — a member with `child_cls` is always included, even
when its configuration lacks the key or its value is outside the given
values; a single non-tuple filter value is normalized to a one-element
tuple. -/
theorem traverse_filter_membership (fuel : Nat) (ms : MemberList) (K : String)
    (vs : List KwVal) (attrs : PyDict) (ms2 : MemberList) (a : String)
    (h : traverse_attr_kwargs fuel ms (some K) (some (TraverseValueArg.tup vs)) =
      Except.ok (attrs, ms2)) :
    (∀ (v : KwVal),
        traverse_attr_kwargs fuel ms (some K) (some (TraverseValueArg.single v)) =
          traverse_attr_kwargs fuel ms (some K) (some (TraverseValueArg.tup [v]))) ∧
      dictHasKey attrs a = memberIncluded ms a (some K) (some vs) :=
  ⟨fun _ => rfl, traverseMembers_hasKey fuel ms (some K) (some vs) attrs ms2 a h⟩

/-- C4 counterexample: in `clsC4`, member `m3`'s configuration lacks the
filter key `"K"` entirely, yet `m3` appears in the result of the filtered
traversal, because its configuration contains `child_cls`. -/
theorem traverse_filter_includes_childcls_member :
    dictHasKey ((memberKwargs clsC4 "m3").getD PyDict.nil) "K" = false ∧
      traverseOk (traverse_attr_kwargs 100 clsC4 (some "K")
          (some (TraverseValueArg.tup [KwVal.v (PyVal.str "v1"), KwVal.v (PyVal.str "v2")])))
        = true ∧
      dictHasKey (traverseAttrs (traverse_attr_kwargs 100 clsC4 (some "K")
          (some (TraverseValueArg.tup [KwVal.v (PyVal.str "v1"), KwVal.v (PyVal.str "v2")]))))
        "m3" = true :=
  ⟨rfl, rfl, rfl⟩

/-- Witness for the amended C4 at concrete inputs: `m1` passes the filter
and is included, `m2` carries the key with a value outside the filter and
is excluded. -/
theorem traverse_filter_membership_witness :
    dictHasKey (traverseAttrs (traverse_attr_kwargs 100 clsC4 (some "K")
          (some (TraverseValueArg.tup [KwVal.v (PyVal.str "v1"), KwVal.v (PyVal.str "v2")]))))
        "m1" =
      memberIncluded clsC4 "m1" (some "K")
        (some [KwVal.v (PyVal.str "v1"), KwVal.v (PyVal.str "v2")]) ∧
      dictHasKey (traverseAttrs (traverse_attr_kwargs 100 clsC4 (some "K")
          (some (TraverseValueArg.tup [KwVal.v (PyVal.str "v1"), KwVal.v (PyVal.str "v2")]))))
        "m2" =
      memberIncluded clsC4 "m2" (some "K")
        (some [KwVal.v (PyVal.str "v1"), KwVal.v (PyVal.str "v2")]) :=
  ⟨(traverse_filter_membership 100 clsC4 "K"
      [KwVal.v (PyVal.str "v1"), KwVal.v (PyVal.str "v2")] _ _ "m1" rfl).2,
    (traverse_filter_membership 100 clsC4 "K"
      [KwVal.v (PyVal.str "v1"), KwVal.v (PyVal.str "v2")] _ _ "m2" rfl).2⟩

/-- C5 (amended): the traversal preserves member names and leaves the
declaration-time configuration of every member without `child_cls`
unchanged; the configuration of a member with `child_cls`, however, is
mutated in place — the computed child subtree is stored into it under
`child_attrs` (the returned tree shares that mapping). -/
theorem traverse_preserves_configs (fuel : Nat) (ms : MemberList) (key : Option String)
    (value : Option TraverseValueArg) (attrs : PyDict) (ms2 : MemberList)
    (h : traverse_attr_kwargs fuel ms key value = Except.ok (attrs, ms2)) :
    configsPreserved ms ms2 :=
  traverseMembers_preserves fuel ms key (normalizeValue value) attrs ms2 h

/-- C5 counterexample: traversing `clsC5` changes the declaration-time
configuration of its member `m` — before the call the member's `kwargs`
mapping has no `child_attrs` entry, after the call it does. -/
theorem traverse_mutates_childcls_config :
    kwHasChildAttrs (memberKwargs clsC5 "m") = false ∧
      traverseOk (traverse_attr_kwargs 100 clsC5 none none) = true ∧
      kwHasChildAttrs
          (memberKwargs (traverseCls (traverse_attr_kwargs 100 clsC5 none none)) "m")
        = true :=
  ⟨rfl, rfl, rfl⟩

/-- Witness for the amended C5 at concrete inputs. -/
theorem traverse_preserves_configs_witness :
    configsPreserved clsC5 ms2C5 :=
  traverse_preserves_configs 100 clsC5 none none attrsC5 ms2C5 rfl

/-- C9 (amended): `add_nb_methods` installs the wrapper of each function
under the function's name with every occurrence of `'_1d'` and `'_nb'`
removed; the installed name equals the function's own name exactly when
the name contains neither substring. -/
theorem nb_method_installed_name (name : String) (clsAttrs : List String)
    (h1 : occursPat name.data ("_1d".data) = false)
    (h2 : occursPat name.data ("_nb".data) = false) :
    add_nb_methods [name] clsAttrs = clsAttrs ++ [nbMethodName name] ∧
      nbMethodName name = name := by
  refine ⟨rfl, ?_⟩
  unfold nbMethodName
  rw [pyReplace_no_occurrence _ _ _ h1]
  rw [pyReplace_no_occurrence _ _ _ h2]

/-- C9 counterexample: a function named `rolling_mean_nb` is installed
under the attribute name `rolling_mean`, not under its own name. -/
theorem nb_method_name_strips_suffix :
    add_nb_methods ["rolling_mean_nb"] [] = ["rolling_mean"] ∧
      nbMethodName "rolling_mean_nb" ≠ "rolling_mean_nb" :=
  ⟨rfl, by decide⟩

/-- Witness for the amended C9 at a concrete name free of the stripped
substrings. -/
theorem nb_method_installed_name_witness :
    occursPat ("cumsum".data) ("_1d".data) = false ∧
      occursPat ("cumsum".data) ("_nb".data) = false ∧
      add_nb_methods ["cumsum"] ["wrap"] = ["wrap", "cumsum"] ∧
      nbMethodName "cumsum" = "cumsum" :=
  ⟨rfl, rfl, by
    have h := nb_method_installed_name "cumsum" ["wrap"] rfl rfl
    rw [h.1, h.2]
    rfl,
    (nb_method_installed_name "cumsum" ["wrap"] rfl rfl).2⟩
